import Mathlib

/-!
A shallow embedding of the port-to-process reconciliation engine of the
lsport repository (src/app.rs, src/scanner.rs, src/remote.rs), together
with theorems settling the specification claims about it.

Modelling conventions:
* machine integers (`u16`, `u32`, `u64`) are `Nat`; the parse helpers carry
  their bound explicitly and every produced value is checked against it;
* the `f32` cpu statistics are `Rat` (every `f32` value is a rational and
  the order on `f32` agrees with the rational order, so comparisons such
  as `cpu_usage > 40.0` are modelled exactly);
* the `f64` arithmetic inside `format_memory` is modelled exactly: the
  only rounding step, `bytes as f64`, is round-to-nearest-ties-to-even at
  53 significant bits (`f64ofNat`); the subsequent division by a power of
  two is exact on such values, and Rust `{:.1}` formatting renders the
  exact decimal value of the double rounded to one fractional digit with
  ties to even (`fmt1`);
* OS interactions (spawned commands, the monotonic clock, the process
  table, the TCP listener enumeration) are explicit parameters of the
  functions that consume them; a spawned command result is
  `Option CmdOut` (`none` models a spawn failure).
-/

namespace Lsport

/-! Rust string primitives, modelled on `List Char`. -/

/-- Models Rust `str::split_whitespace`: split at whitespace runs, producing
no empty fragments. -/
def wsSplit (cs : List Char) : List (List Char) :=
  (List.splitOnP (fun c => c.isWhitespace) cs).filter (fun p => !p.isEmpty)

/-- Indices at which the pattern `pat` occurs in `cs` (ascending). -/
def subStarts (cs pat : List Char) : List ℕ :=
  (List.range (cs.length + 1)).filter (fun i => pat.isPrefixOf (cs.drop i))

/-- Models Rust `str::contains` for a substring pattern. -/
def containsSub (cs pat : List Char) : Bool := !(subStarts cs pat).isEmpty

/-- Indices at which the character `c` occurs in `cs` (ascending). -/
def charIdxs (cs : List Char) (c : Char) : List ℕ :=
  (List.range cs.length).filter (fun i => [c].isPrefixOf (cs.drop i))

/-- Models Rust `str::find` for a substring pattern. -/
def findSub (cs pat : List Char) : Option ℕ := (subStarts cs pat).head?

/-- Models Rust `str::rfind` for a character. -/
def rfindIdx (cs : List Char) (c : Char) : Option ℕ := (charIdxs cs c).getLast?

/-- The fragment after the last occurrence of `pat` (all of `cs` when `pat`
does not occur): the first item yielded by Rust `rsplit`/`rsplitn`. -/
def afterLastSub (cs pat : List Char) : List Char :=
  match (subStarts cs pat).getLast? with
  | none => cs
  | some i => cs.drop (i + pat.length)

/-- Models Rust `str::rsplitn(2, pat)` collected into a vector: the fragment
after the last occurrence first, then the fragment before it. -/
def rsplitn2 (cs pat : List Char) : List (List Char) :=
  match (subStarts cs pat).getLast? with
  | none => [cs]
  | some i => [cs.drop (i + pat.length), cs.take i]

/-- Models Rust `str::split_once(c)`: split at the first occurrence of `c`. -/
def splitOnceChar (cs : List Char) (c : Char) : Option (List Char × List Char) :=
  match (charIdxs cs c).head? with
  | none => none
  | some i => some (cs.take i, cs.drop (i + 1))

/-- Models Rust `str::trim` (whitespace stripped from both ends). -/
def rustTrim (cs : List Char) : List Char :=
  ((cs.dropWhile Char.isWhitespace).reverse.dropWhile Char.isWhitespace).reverse

/-- Drops one trailing carriage return, as Rust `str::lines` does per line. -/
def stripCR (cs : List Char) : List Char :=
  if cs.getLast? = some '\r' then cs.dropLast else cs

/-- Models Rust `str::lines`: split at every newline, with no empty fragment
after a final newline. -/
def rustLines (s : String) : List (List Char) :=
  let ps := List.splitOnP (fun c => c = '\n') s.data
  let ps := if ps.getLast? = some ([] : List Char) then ps.dropLast else ps
  ps.map stripCR

/-- Accumulating value of an ascii digit run; `none` at the first non-digit. -/
def digitsValAux : List Char → ℕ → Option ℕ
  | [], acc => some acc
  | c :: cs, acc =>
    if c.isDigit then digitsValAux cs (acc * 10 + (c.toNat - 48)) else none

/-- Models Rust `str::parse` for an unsigned integer type with `bound`
distinct values (`u16`: 65536, `u32`: 2^32): an optional leading plus sign,
then one or more ascii digits, and the value must lie below the bound;
anything else (including overflow) is `none`, as Rust reports an error. -/
def parseUInt (bound : ℕ) (cs : List Char) : Option ℕ :=
  let body := match cs with
    | '+' :: rest => rest
    | _ => cs
  if body.isEmpty then none
  else match digitsValAux body 0 with
    | none => none
    | some v => if v < bound then some v else none

def u16Bound : ℕ := 65536

def u32Bound : ℕ := 4294967296

/-! Data model (src/app.rs). -/

/-- Network protocol type. -/
inductive Protocol where
  | Tcp
  | Udp
deriving DecidableEq

/-- A port/process table row (`PortEntry` in src/app.rs). -/
structure PortEntry where
  port : ℕ
  protocol : Protocol
  pid : ℕ
  process_name : String
  cpu_usage : ℚ
  memory_usage : ℕ
  memory_display : String
  has_parent : Bool
  is_zombie : Bool
deriving DecidableEq

/-- CPU threshold for zombie detection (`ZOMBIE_CPU_THRESHOLD`, 40%). -/
def ZOMBIE_CPU_THRESHOLD : ℚ := 40

/-- Models `PortEntry::detect_zombie`: the in-place field update, returned as
a new value: `is_zombie = cpu_usage > ZOMBIE_CPU_THRESHOLD && !has_parent`. -/
def detect_zombie (e : PortEntry) : PortEntry :=
  { e with is_zombie := decide (ZOMBIE_CPU_THRESHOLD < e.cpu_usage) && !e.has_parent }

/-! Memory formatting (`format_memory` in src/scanner.rs). -/

def fmKB : ℕ := 1024

def fmMB : ℕ := fmKB * 1024

def fmGB : ℕ := fmMB * 1024

/-- Base-2 logarithm for `1 ≤ n < 2^64`, computed by counting the powers of
two not exceeding `n` (a form the kernel evaluates directly). -/
def log2u64 (n : ℕ) : ℕ :=
  ((List.range 64).filter (fun j => 2 ^ j ≤ n)).length - 1

/-- Exact integer value of `n as f64` for `n < 2^64`: values below `2^53` are
exact; larger values are rounded to 53 significant bits, ties to even
(IEEE 754 round-to-nearest conversion; every `u64` converts to an integer). -/
def f64ofNat (n : ℕ) : ℕ :=
  if n < 2 ^ 53 then n
  else
    let k := log2u64 n - 52
    let q := n / 2 ^ k
    let r := n % 2 ^ k
    let half := 2 ^ (k - 1)
    (if half < r ∨ (r = half ∧ q % 2 = 1) then q + 1 else q) * 2 ^ k

/-- Rounds `a / b` to the nearest integer with ties to even (`b > 0`). -/
def rnheDiv (a b : ℕ) : ℕ :=
  let q := a / b
  let r := a % b
  if b < 2 * r ∨ (2 * r = b ∧ q % 2 = 1) then q + 1 else q

/-- Models Rust `format!` with the `{:.1}` specifier applied to the exact
nonnegative double value `a / b` (`b` a power of two dividing into the
53-bit range, so the double is exact): Rust formats the exact decimal value
of the double rounded to one fractional digit with ties to even. -/
def fmt1 (a b : ℕ) : String :=
  let d := rnheDiv (10 * a) b
  toString (d / 10) ++ "." ++ toString (d % 10)

/-- Models `format_memory` (src/scanner.rs): pick the largest unit the value
reaches, render bytes with no decimal and larger units via `{:.1}` applied
to `bytes as f64 / UNIT as f64`. -/
def format_memory (bytes : ℕ) : String :=
  if fmGB ≤ bytes then fmt1 (f64ofNat bytes) fmGB ++ " GB"
  else if fmMB ≤ bytes then fmt1 (f64ofNat bytes) fmMB ++ " MB"
  else if fmKB ≤ bytes then fmt1 (f64ofNat bytes) fmKB ++ " KB"
  else toString bytes ++ " B"

/-- Rounds `a / b` to the nearest integer, exact halves upward. -/
def rnhuDiv (a b : ℕ) : ℕ :=
  let q := a / b
  let r := a % b
  if b ≤ 2 * r then q + 1 else q

/-- One-fractional-digit rendering of `a / b` with half-up rounding. -/
def fmt1up (a b : ℕ) : String :=
  let d := rnhuDiv (10 * a) b
  toString (d / 10) ++ "." ++ toString (d % 10)

/-- Modelled from the spec's words (for comparison with `format_memory`):
largest 1024-based unit the value reaches, bytes with no decimal, larger
units with exactly one decimal digit using standard half-up rounding of the
value divided by the unit size. -/
def formatMemorySpecHalfUp (bytes : ℕ) : String :=
  if fmGB ≤ bytes then fmt1up bytes fmGB ++ " GB"
  else if fmMB ≤ bytes then fmt1up bytes fmMB ++ " MB"
  else if fmKB ≤ bytes then fmt1up bytes fmKB ++ " KB"
  else toString bytes ++ " B"

/-! Remote scanning (src/remote.rs). -/

/-- Remote host connection configuration (`RemoteConfig`). Paths are kept as
strings; `key_path` is `none` unless `with_key` is applied. -/
structure RemoteConfig where
  username : String
  host : String
  port : ℕ
  key_path : Option String
deriving DecidableEq

instance : DecidableEq (Except String RemoteConfig) := fun a b =>
  match a, b with
  | Except.error x, Except.error y =>
    if h : x = y then isTrue (by rw [h])
    else isFalse (by intro hc; cases hc; exact h rfl)
  | Except.ok x, Except.ok y =>
    if h : x = y then isTrue (by rw [h])
    else isFalse (by intro hc; cases hc; exact h rfl)
  | Except.error _, Except.ok _ => isFalse (by intro hc; cases hc)
  | Except.ok _, Except.error _ => isFalse (by intro hc; cases hc)

/-- The pattern `"]:"` used for bracketed IPv6 addresses. -/
def brColon : List Char := [']', ':']

/-- The port-splitting half of `RemoteConfig::parse`: when the input holds a
colon, split at the last one (`rsplitn(2, ':')`) and parse the tail as a
`u16`; otherwise the whole input with default port 22. -/
def splitPort (cs : List Char) : Except String (List Char × ℕ) :=
  match (subStarts cs [':']).getLast? with
  | some i =>
    match parseUInt u16Bound (cs.drop (i + 1)) with
    | some p => Except.ok (cs.take i, p)
    | none => Except.error "Invalid port number"
  | none => Except.ok (cs, 22)

/-- The user-splitting half of `RemoteConfig::parse`: when a `'@'` occurs,
split at the first one (`splitn(2, '@')`) and reject an empty host;
otherwise the username comes from the environment, falling back to "root". -/
def userHostSplit (user_host : List Char) (port : ℕ) (envUser : Option String) :
    Except String RemoteConfig :=
  match (subStarts user_host ['@']).head? with
  | some j =>
    if (user_host.drop (j + 1)).isEmpty then Except.error "Host cannot be empty"
    else Except.ok
      ⟨(user_host.take j).asString, (user_host.drop (j + 1)).asString, port, none⟩
  | none =>
    if user_host.isEmpty then Except.error "Host cannot be empty"
    else Except.ok
      ⟨(match envUser with
        | some u => u
        | none => "root"), user_host.asString, port, none⟩

/-- Models `RemoteConfig::parse` (src/remote.rs). The process environment is
passed explicitly: `envUser` is the value of `USER` (or, failing that,
`USERNAME`), `none` when neither is set. -/
def RemoteConfig.parse (host_str : String) (envUser : Option String) :
    Except String RemoteConfig :=
  if (rustTrim host_str.data).isEmpty then Except.error "Host cannot be empty"
  else
    match splitPort host_str.data with
    | Except.error e => Except.error e
    | Except.ok (user_host, port) => userHostSplit user_host port envUser

/-- Models `RemoteScanner::extract_port` (src/remote.rs): bracketed IPv6
addresses are split at the last `"]:"`, otherwise the text after the last
colon is parsed as a `u16`. -/
def extract_port (addr : List Char) : Option ℕ :=
  if containsSub addr brColon then
    match (rsplitn2 addr brColon).head? with
    | none => none
    | some p => parseUInt u16Bound p
  else
    match rfindIdx addr ':' with
    | some pos => parseUInt u16Bound (addr.drop (pos + 1))
    | none => none

/-- Models `RemoteScanner::parse_ss_users` (src/remote.rs): extract the
quoted process name and the `pid=<n>` value from the ss diagnostic column;
on any missing piece the pid defaults to 0 and the name to "unknown". -/
def parse_ss_users (users : List Char) : ℕ × String :=
  match findSub users ['(', '(', '"'] with
  | none => (0, "unknown")
  | some start =>
    let rest := users.drop (start + 3)
    match (charIdxs rest '"').head? with
    | none => (0, "unknown")
    | some e =>
      let process_name := (rest.take e).asString
      match findSub rest ['p', 'i', 'd', '='] with
      | none => (0, process_name)
      | some ps =>
        let pid_rest := rest.drop (ps + 4)
        match pid_rest.findIdx? (fun c => !c.isDigit) with
        | none => (0, process_name)
        | some pe =>
          match parseUInt u32Bound (pid_rest.take pe) with
          | some pid => (pid, process_name)
          | none => (0, process_name)

/-- Models `RemoteScanner::parse_ss_line` (src/remote.rs): at least five
whitespace columns, the fifth holding the address whose port is extracted;
pid and name come from the last column via `parse_ss_users`. -/
def parse_ss_line (line : List Char) (protocol : Protocol) : Option PortEntry :=
  let parts := wsSplit line
  if parts.length < 5 then none
  else
    match parts.get? 4 with
    | none => none
    | some local_addr =>
      match extract_port local_addr with
      | none => none
      | some port =>
        let pn : ℕ × String := match parts.getLast? with
          | some users => parse_ss_users users
          | none => (0, "unknown")
        some ⟨port, protocol, pn.1, pn.2, 0, 0, "-", true, false⟩

/-- Models `RemoteScanner::parse_lsof_line` (src/remote.rs): at least nine
whitespace columns; name from the first, pid parsed from the second (a parse
failure skips the line), port extracted from the ninth. -/
def parse_lsof_line (line : List Char) (protocol : Protocol) : Option PortEntry :=
  let parts := wsSplit line
  if parts.length < 9 then none
  else
    let process_name := (parts.headD []).asString
    match parseUInt u32Bound (parts.getD 1 []) with
    | none => none
    | some pid =>
      match extract_port (parts.getD 8 []) with
      | none => none
      | some port => some ⟨port, protocol, pid, process_name, 0, 0, "-", true, false⟩

/-- The token scan inside `RemoteScanner::parse_netstat_line`: the first
whitespace column carrying a parseable port yields the entry. -/
def firstPortEntry : List (List Char) → Option PortEntry
  | [] => none
  | a :: rest =>
    match extract_port a with
    | some port => some ⟨port, Protocol.Tcp, 0, "unknown", 0, 0, "-", true, false⟩
    | none => firstPortEntry rest

/-- Models `RemoteScanner::parse_netstat_line` (src/remote.rs): at least four
whitespace columns, then a token-by-token search for a parseable port;
pid/process name are not derivable and default to 0/"unknown". -/
def parse_netstat_line (line : List Char) : Option PortEntry :=
  let parts := wsSplit line
  if parts.length < 4 then none
  else firstPortEntry parts

/-! Local scanner (src/scanner.rs). -/

/-- Cached UDP port entry (`UdpCacheEntry`, without live process stats). -/
structure UdpCacheEntry where
  port : ℕ
  pid : ℕ
  process_name : String
deriving DecidableEq

/-- A finished external command: its status success flag and captured
standard output. A spawn failure is modelled as `none` at the use sites. -/
structure CmdOut where
  success : Bool
  stdout : String

/-- How often to refresh UDP port data (`UDP_CACHE_DURATION`, 5 s); times are
counted in whole seconds on a monotonic clock modelled as `ℕ`. -/
def UDP_CACHE_DURATION : ℕ := 5

/-- Per-process statistics snapshot (`ProcessInfo` in src/scanner.rs). -/
structure ProcessInfo where
  name : String
  cpu_usage : ℚ
  memory : ℕ
  has_parent : Bool

/-- The scanner state (`Scanner`): the cached UDP rows and the time of the
last cache refresh. The `sysinfo::System` handle is not state that the
claims touch; the process map it yields is a parameter of `scan`. -/
structure Scanner where
  udp_cache : List UdpCacheEntry
  udp_cache_time : ℕ
deriving DecidableEq

/-- A TCP listener as returned by the `listeners` crate. -/
structure Listener where
  port : ℕ
  pid : ℕ
  name : String

/-- The environment a single `Scanner::scan` call observes: the process
table, the TCP listener enumeration (`none` models `listeners::get_all`
failing), the two UDP command results and the current instant. -/
structure ScanEnv where
  process_map : ℕ → Option ProcessInfo
  tcp_listeners : Option (List Listener)
  lsof_out : Option CmdOut
  netstat_out : Option CmdOut
  now : ℕ

/-- Result of handling one lsof output line inside
`Scanner::scan_udp_with_lsof_raw`: skip it, abort the whole scan (a `?`
returning `None`), or yield a parsed row. -/
inductive LsofLineRes where
  | skip : LsofLineRes
  | abort : LsofLineRes
  | entry : ℕ → ℕ → String → LsofLineRes

/-- One line of `lsof -i UDP -n -P` output: fewer than nine columns or an
unparseable pid or port skip the line; the name column is the last one and
its port is the text after its last colon. -/
def lsofLineParse (l : List Char) : LsofLineRes :=
  let parts := wsSplit l
  if parts.length < 9 then LsofLineRes.skip
  else
    let process_name := (parts.headD []).asString
    match parseUInt u32Bound (parts.getD 1 []) with
    | none => LsofLineRes.skip
    | some pid =>
      match parts.getLast? with
      | none => LsofLineRes.abort
      | some nm =>
        match parseUInt u16Bound (afterLastSub nm [':']) with
        | none => LsofLineRes.skip
        | some port => LsofLineRes.entry port pid process_name

/-- The line loop of `Scanner::scan_udp_with_lsof_raw`, carrying the
`seen_ports` set used to drop duplicate (port, pid) pairs. -/
def scan_udp_lsof_lines : List (List Char) → List (ℕ × ℕ) → Option (List UdpCacheEntry)
  | [], _ => some []
  | l :: rest, seen =>
    match lsofLineParse l with
    | LsofLineRes.skip => scan_udp_lsof_lines rest seen
    | LsofLineRes.abort => none
    | LsofLineRes.entry port pid nm =>
      if (port, pid) ∈ seen then scan_udp_lsof_lines rest seen
      else (scan_udp_lsof_lines rest ((port, pid) :: seen)).map
        (fun es => ⟨port, pid, nm⟩ :: es)

/-- Models `Scanner::scan_udp_with_lsof_raw` (src/scanner.rs): `none` when
the command could not be spawned or exited unsuccessfully; otherwise the
parsed rows of its output, header line skipped, deduplicated by (port, pid). -/
def scan_udp_with_lsof_raw (out : Option CmdOut) : Option (List UdpCacheEntry) :=
  match out with
  | none => none
  | some o =>
    if !o.success then none
    else scan_udp_lsof_lines ((rustLines o.stdout).drop 1) []

/-- The line loop of `Scanner::scan_udp_with_netstat_raw`; `none` models the
`?` that aborts the whole scan when a "udp" line has fewer than two columns. -/
def scan_udp_netstat_lines : List (List Char) → Option (List UdpCacheEntry)
  | [] => some []
  | l :: rest =>
    if !(containsSub l "udp".data || containsSub l "UDP".data) then
      scan_udp_netstat_lines rest
    else
      let parts := wsSplit l
      match (parts.get? 3).orElse (fun _ => parts.get? 1) with
      | none => none
      | some local_addr =>
        match parseUInt u16Bound (afterLastSub local_addr [':']) with
        | none => scan_udp_netstat_lines rest
        | some port =>
          match parts.getLast? with
          | none => scan_udp_netstat_lines rest
          | some pid_prog =>
            match splitOnceChar pid_prog '/' with
            | none => scan_udp_netstat_lines rest
            | some (pid_str, prog) =>
              match parseUInt u32Bound pid_str with
              | none => scan_udp_netstat_lines rest
              | some pid =>
                (scan_udp_netstat_lines rest).map
                  (fun es => ⟨port, pid, prog.asString⟩ :: es)

/-- Models `Scanner::scan_udp_with_netstat_raw` (src/scanner.rs): parse every
line mentioning udp; no deduplication; an empty parse result is reported as
failure (`none`), as is a spawn failure or unsuccessful exit. -/
def scan_udp_with_netstat_raw (out : Option CmdOut) : Option (List UdpCacheEntry) :=
  match out with
  | none => none
  | some o =>
    if !o.success then none
    else
      match scan_udp_netstat_lines (rustLines o.stdout) with
      | none => none
      | some es => if es.isEmpty then none else some es

/-- Models `Scanner::scan_udp_ports_raw`: lsof first, netstat as fallback,
and the empty list when both fail. -/
def scan_udp_ports_raw (lsofO netstatO : Option CmdOut) : List UdpCacheEntry :=
  match scan_udp_with_lsof_raw lsofO with
  | some es => es
  | none =>
    match scan_udp_with_netstat_raw netstatO with
    | some es => es
    | none => []

/-- Models `Scanner::refresh_udp_cache`: replace the cache with the raw scan
result and stamp the current instant. -/
def refresh_udp_cache (st : Scanner) (lsofO netstatO : Option CmdOut) (now : ℕ) :
    Scanner :=
  { udp_cache := scan_udp_ports_raw lsofO netstatO, udp_cache_time := now }

/-- Joins one cached UDP row against the live process map, the per-row body
of `Scanner::get_udp_entries`. -/
def cachedToEntry (pm : ℕ → Option ProcessInfo) (cached : UdpCacheEntry) : PortEntry :=
  let stats : ℚ × ℕ × Bool := match pm cached.pid with
    | some info => (info.cpu_usage, info.memory, info.has_parent)
    | none => (0, 0, true)
  { port := cached.port
    protocol := Protocol.Udp
    pid := cached.pid
    process_name := cached.process_name
    cpu_usage := stats.1
    memory_usage := stats.2.1
    memory_display := format_memory stats.2.1
    has_parent := stats.2.2
    is_zombie := false }

/-- Models `Scanner::get_udp_entries`: refresh the cache when the elapsed
time reaches `UDP_CACHE_DURATION`, then serve the (possibly refreshed)
cached rows joined against fresh process stats. Returns the entries and the
scanner state after the call. -/
def get_udp_entries (st : Scanner) (pm : ℕ → Option ProcessInfo)
    (lsofO netstatO : Option CmdOut) (now : ℕ) : List PortEntry × Scanner :=
  let st' := if UDP_CACHE_DURATION ≤ now - st.udp_cache_time
    then refresh_udp_cache st lsofO netstatO now else st
  (st'.udp_cache.map (cachedToEntry pm), st')

/-- Models `Scanner::listener_to_entry`: join a TCP listener against the
process map, defaulting stats when the pid is absent. -/
def listener_to_entry (l : Listener) (protocol : Protocol)
    (pm : ℕ → Option ProcessInfo) : Option PortEntry :=
  let stats : String × ℚ × ℕ × Bool := match pm l.pid with
    | some info => (info.name, info.cpu_usage, info.memory, info.has_parent)
    | none => (l.name, 0, 0, true)
  some
    { port := l.port
      protocol := protocol
      pid := l.pid
      process_name := stats.1
      cpu_usage := stats.2.1
      memory_usage := stats.2.2.1
      memory_display := format_memory stats.2.2.1
      has_parent := stats.2.2.2
      is_zombie := false }

/-- The protocol comparison closure inside `Scanner::scan`: TCP before UDP. -/
def protoOrd : Protocol → Protocol → Ordering
  | Protocol.Tcp, Protocol.Udp => Ordering.lt
  | Protocol.Udp, Protocol.Tcp => Ordering.gt
  | _, _ => Ordering.eq

/-- The composite comparator of `Scanner::scan`: ascending port, then TCP
before UDP, then descending memory usage. -/
def pe_cmp (a b : PortEntry) : Ordering :=
  ((compare a.port b.port).then (protoOrd a.protocol b.protocol)).then
    (compare b.memory_usage a.memory_usage)

/-- The weak order induced by `pe_cmp`, under which the produced list is
sorted (Rust `sort_by` leaves every adjacent pair non-`Greater`). -/
def peLE (a b : PortEntry) : Prop := pe_cmp a b ≠ Ordering.gt

instance : DecidableRel peLE := fun a b =>
  inferInstanceAs (Decidable (pe_cmp a b ≠ Ordering.gt))

/-- Numeric rank of a protocol in the sort order (TCP first). -/
def protoRank : Protocol → ℕ
  | Protocol.Tcp => 0
  | Protocol.Udp => 1

/-- The ordering claim for one adjacent pair, stated the way the spec states
it: ascending port; on equal ports TCP before UDP; on equal port and
protocol descending memory. -/
def adjKey (a b : PortEntry) : Prop :=
  a.port < b.port ∨
    (a.port = b.port ∧
      ((a.protocol = Protocol.Tcp ∧ b.protocol = Protocol.Udp) ∨
        (a.protocol = b.protocol ∧ b.memory_usage ≤ a.memory_usage)))

/-- The same pair ordering with the protocol expressed numerically. -/
def rankKey (a b : PortEntry) : Prop :=
  a.port < b.port ∨
    (a.port = b.port ∧
      (protoRank a.protocol < protoRank b.protocol ∨
        (protoRank a.protocol = protoRank b.protocol ∧
          b.memory_usage ≤ a.memory_usage)))

/-- Models `Scanner::scan` (src/scanner.rs): collect TCP entries from the
listener enumeration, UDP entries through the cache, concatenate, sort with
the composite comparator (Rust `sort_by` is a stable sort, as is
`List.insertionSort`, so the produced list is identical), then apply zombie
detection to every entry. Returns the entries and the scanner state after
the call. -/
def Scanner.scan (st : Scanner) (env : ScanEnv) : List PortEntry × Scanner :=
  let pm := env.process_map
  let tcpEntries := match env.tcp_listeners with
    | some ls => ls.filterMap (fun l => listener_to_entry l Protocol.Tcp pm)
    | none => []
  let udp := get_udp_entries st pm env.lsof_out env.netstat_out env.now
  let entries := tcpEntries ++ udp.1
  ((List.insertionSort peLE entries).map detect_zombie, udp.2)

/-- Key disagreement of two UDP cache rows: not both the same port and the
same pid. -/
def keyNe (a b : UdpCacheEntry) : Prop := ¬(a.port = b.port ∧ a.pid = b.pid)

instance : DecidableRel keyNe := fun a b =>
  inferInstanceAs (Decidable ¬(a.port = b.port ∧ a.pid = b.pid))

/-! Concrete instances used by witness theorems. -/

/-- A scan environment with one busy orphaned TCP listener on port 8080. -/
def env0 : ScanEnv :=
  { process_map := fun n => if n = 5 then some ⟨"srv", 50, 100, false⟩ else none
    tcp_listeners := some [⟨8080, 5, "srv"⟩]
    lsof_out := none
    netstat_out := none
    now := 10 }

/-- A scanner state with an empty UDP cache last refreshed at instant 0. -/
def st0 : Scanner := ⟨[], 0⟩

/-- The single entry `Scanner.scan st0 env0` produces. -/
def e0 : PortEntry := ⟨8080, Protocol.Tcp, 5, "srv", 50, 100, "100 B", false, true⟩

/-- A scanner state holding one cached UDP row, refreshed at instant 0. -/
def stC2 : Scanner := ⟨[⟨53, 10, "dns"⟩], 0⟩

/-- The configuration parsed from "example.com" with `USER` set to "alice". -/
def cfgEx : RemoteConfig := ⟨"alice", "example.com", 22, none⟩

end Lsport

namespace Lsport

/-! Helper lemmas about the string primitives. -/

theorem isPrefixOf_single_iff (c : Char) (xs : List Char) :
    [c].isPrefixOf xs = true ↔ xs.head? = some c := by
  rw [List.isPrefixOf_iff_prefix]
  cases xs with
  | nil => simp
  | cons a t =>
    constructor
    · intro h
      rcases h with ⟨r, hr⟩
      injection hr with h1 h2
      subst h1
      rfl
    · intro h
      simp only [List.head?_cons, Option.some.injEq] at h
      subst h
      exact ⟨t, rfl⟩

theorem charIdxs_eq_nil_iff (cs : List Char) (c : Char) :
    charIdxs cs c = [] ↔ c ∉ cs := by
  unfold charIdxs
  rw [List.filter_eq_nil_iff]
  constructor
  · intro h hm
    rcases List.mem_iff_getElem?.mp hm with ⟨i, hi⟩
    have hlt : i < cs.length := by
      rcases List.getElem?_eq_some_iff.mp hi with ⟨hl, _⟩
      exact hl
    refine h i (List.mem_range.mpr hlt) ?_
    rw [isPrefixOf_single_iff, List.head?_drop]
    exact hi
  · intro h i _ hp
    rw [isPrefixOf_single_iff, List.head?_drop] at hp
    exact h (List.mem_iff_getElem?.mpr ⟨i, hp⟩)

theorem subStarts_single (cs : List Char) (c : Char) :
    subStarts cs [c] = charIdxs cs c := by
  unfold subStarts charIdxs
  rw [List.range_succ, List.filter_append]
  have h : List.filter (fun i => [c].isPrefixOf (cs.drop i)) [cs.length] = [] := by
    simp [List.filter, List.drop_length, List.isPrefixOf]
  rw [h, List.append_nil]

theorem subStarts_single_nil {cs : List Char} {c : Char} (h : c ∉ cs) :
    subStarts cs [c] = [] := by
  rw [subStarts_single]
  exact (charIdxs_eq_nil_iff cs c).mpr h

theorem containsSub_eq_false_iff (cs pat : List Char) :
    containsSub cs pat = false ↔ subStarts cs pat = [] := by
  unfold containsSub
  cases h : subStarts cs pat <;> simp [h]

theorem containsSub_brColon_of_no_colon {addr : List Char} (h : ':' ∉ addr) :
    containsSub addr brColon = false := by
  rw [containsSub_eq_false_iff]
  unfold subStarts
  rw [List.filter_eq_nil_iff]
  intro i _ hp
  rcases List.isPrefixOf_iff_prefix.mp hp with ⟨t, ht⟩
  refine absurd (List.mem_of_mem_drop (show ':' ∈ addr.drop i from ?_)) h
  rw [← ht]
  simp [brColon]

/-! First claim theorems about the formatter. -/

/-- C4: the memory formatter round-trip table: 0, 1023, 1024, 1536, 2^20 and
2^30 render as listed, and `u64::MAX` renders to a string ending in "GB"
(the function is total, so it cannot panic or overflow). -/
theorem c4_format_memory_table :
    format_memory 0 = "0 B" ∧
    format_memory 1023 = "1023 B" ∧
    format_memory 1024 = "1.0 KB" ∧
    format_memory 1536 = "1.5 KB" ∧
    format_memory 1048576 = "1.0 MB" ∧
    format_memory 1073741824 = "1.0 GB" ∧
    "GB".data.isSuffixOf (format_memory (2 ^ 64 - 1)).data = true := by
  refine ⟨by decide, by decide, by decide, by decide, by decide, by decide, by decide⟩

theorem f64ofNat_eq_self {n : ℕ} (h : n < 2 ^ 53) : f64ofNat n = n := by
  unfold f64ofNat
  rw [if_pos h]

/-- C9 counterexample: the spec prescribes half-up rounding of the decimal
digit, but Rust `{:.1}` rounds ties to even; 1280 bytes is exactly 1.25 KB,
which the code renders "1.2 KB" while half-up rounding renders "1.3 KB". -/
theorem c9_half_up_counterexample :
    format_memory 1280 = "1.2 KB" ∧ formatMemorySpecHalfUp 1280 = "1.3 KB" ∧
    format_memory 1280 ≠ formatMemorySpecHalfUp 1280 :=
  ⟨by decide, by decide, by decide⟩

/-- C9 (amended): the formatter selects the largest 1024-based unit the value
reaches, renders plain-byte values with no decimal digit, and renders every
KB/MB/GB value with exactly one decimal digit obtained by
round-half-to-even (not half-up) of the byte count divided by the unit
size; byte counts of 2^53 and above are first rounded to double precision. -/
theorem c9_format_memory_rounding (n : ℕ) :
    (n < fmKB → format_memory n = toString n ++ " B") ∧
    (fmKB ≤ n → n < fmMB → format_memory n = fmt1 n fmKB ++ " KB") ∧
    (fmMB ≤ n → n < fmGB → format_memory n = fmt1 n fmMB ++ " MB") ∧
    (fmGB ≤ n → n < 2 ^ 53 → format_memory n = fmt1 n fmGB ++ " GB") ∧
    (2 ^ 53 ≤ n → format_memory n = fmt1 (f64ofNat n) fmGB ++ " GB") := by
  have ekb : fmKB = 1024 := rfl
  have emb : fmMB = 1048576 := rfl
  have egb : fmGB = 1073741824 := rfl
  refine ⟨?_, ?_, ?_, ?_, ?_⟩
  · intro h
    rw [ekb] at h
    unfold format_memory
    rw [if_neg (by rw [egb]; omega), if_neg (by rw [emb]; omega),
      if_neg (by rw [ekb]; omega)]
  · intro hlo hhi
    rw [ekb] at hlo
    rw [emb] at hhi
    unfold format_memory
    rw [if_neg (by rw [egb]; omega), if_neg (by rw [emb]; omega),
      if_pos (by rw [ekb]; omega), f64ofNat_eq_self (by omega)]
  · intro hlo hhi
    rw [emb] at hlo
    rw [egb] at hhi
    unfold format_memory
    rw [if_neg (by rw [egb]; omega), if_pos (by rw [emb]; omega),
      f64ofNat_eq_self (by omega)]
  · intro hlo hhi
    unfold format_memory
    rw [if_pos hlo, f64ofNat_eq_self hhi]
  · intro h
    unfold format_memory
    rw [if_pos (le_trans (by rw [egb]; omega) h)]

/-- C9 witness: the amended characterization evaluated in each regime. -/
theorem c9_witness :
    format_memory 5 = toString 5 ++ " B" ∧
    format_memory 1280 = fmt1 1280 fmKB ++ " KB" ∧
    format_memory 2097152 = fmt1 2097152 fmMB ++ " MB" ∧
    format_memory 2147483648 = fmt1 2147483648 fmGB ++ " GB" ∧
    format_memory (2 ^ 60) = fmt1 (f64ofNat (2 ^ 60)) fmGB ++ " GB" :=
  ⟨(c9_format_memory_rounding 5).1 (by decide),
   (c9_format_memory_rounding 1280).2.1 (by decide) (by decide),
   (c9_format_memory_rounding 2097152).2.2.1 (by decide) (by decide),
   (c9_format_memory_rounding 2147483648).2.2.2.1 (by decide) (by decide),
   (c9_format_memory_rounding (2 ^ 60)).2.2.2.2 (by decide)⟩

/-! Claim theorems about the UDP cache. -/

/-- C2 counterexample: with a non-empty cache and both diagnostic commands
failing to spawn, a refresh replaces the cached rows with the empty list —
the previous contents are not kept. -/
theorem c2_clear_counterexample :
    stC2.udp_cache ≠ [] ∧
    scan_udp_with_lsof_raw none = none ∧
    scan_udp_with_netstat_raw none = none ∧
    (refresh_udp_cache stC2 none none 7).udp_cache = [] :=
  ⟨by decide, rfl, rfl, rfl⟩

/-- C2 (amended): when the primary (lsof) scan and the secondary (netstat)
scan both fail, `refresh_udp_cache` clears the cache to empty — the previous
contents are discarded, not kept — and still updates the timestamp. -/
theorem c2_total_failure_clears (st : Scanner) (lsofO netstatO : Option CmdOut)
    (now : ℕ) (hl : scan_udp_with_lsof_raw lsofO = none)
    (hn : scan_udp_with_netstat_raw netstatO = none) :
    refresh_udp_cache st lsofO netstatO now = ⟨[], now⟩ := by
  unfold refresh_udp_cache scan_udp_ports_raw
  rw [hl, hn]

/-- C2 witness: the amended statement applied to the concrete failing state. -/
theorem c2_witness : refresh_udp_cache stC2 none none 7 = ⟨[], 7⟩ :=
  c2_total_failure_clears stC2 none none 7 rfl rfl

/-- C6: a read strictly inside the refresh interval leaves the scanner state
untouched, serves the previously cached rows and does not depend on the raw
scan commands at all (they are not invoked); a read at or beyond the
interval re-scans and stamps the current instant. -/
theorem c6_udp_cache_staleness (st : Scanner) (pm : ℕ → Option ProcessInfo)
    (l1 n1 l2 n2 : Option CmdOut) (now : ℕ) :
    (now - st.udp_cache_time < UDP_CACHE_DURATION →
      (get_udp_entries st pm l1 n1 now).2 = st ∧
      (get_udp_entries st pm l1 n1 now).1 = st.udp_cache.map (cachedToEntry pm) ∧
      get_udp_entries st pm l1 n1 now = get_udp_entries st pm l2 n2 now) ∧
    (UDP_CACHE_DURATION ≤ now - st.udp_cache_time →
      (get_udp_entries st pm l1 n1 now).2.udp_cache_time = now ∧
      (get_udp_entries st pm l1 n1 now).2.udp_cache = scan_udp_ports_raw l1 n1) := by
  constructor
  · intro h
    have hn : ¬ UDP_CACHE_DURATION ≤ now - st.udp_cache_time := by omega
    unfold get_udp_entries
    simp only [if_neg hn]
    exact ⟨trivial, trivial, trivial⟩
  · intro h
    unfold get_udp_entries
    rw [if_pos h]
    exact ⟨rfl, rfl⟩

/-- C6 witness: a read at instant 3 (elapsed 3 < 5) serves the cache
unchanged; a read at instant 5 (elapsed 5 ≥ 5) stamps the new instant. -/
theorem c6_witness :
    (get_udp_entries stC2 (fun _ => none) none none 3).2 = stC2 ∧
    (get_udp_entries stC2 (fun _ => none) none none 5).2.udp_cache_time = 5 :=
  ⟨((c6_udp_cache_staleness stC2 (fun _ => none) none none none none 3).1
      (by decide)).1,
   ((c6_udp_cache_staleness stC2 (fun _ => none) none none none none 5).2
      (by decide)).1⟩

/-! Claim theorems about the reconciliation scan. -/

/-- C1: in the list a scan returns, an entry is flagged as a zombie exactly
when its cpu usage strictly exceeds 40 and it has no parent; cpu usage of
exactly 40 never yields the flag. Every entry passes through
`detect_zombie`, the only place the flag is set. -/
theorem c1_zombie_classification (st : Scanner) (env : ScanEnv) (e : PortEntry)
    (he : e ∈ (Scanner.scan st env).1) :
    (e.is_zombie = true ↔ (ZOMBIE_CPU_THRESHOLD < e.cpu_usage ∧ e.has_parent = false)) ∧
    (e.cpu_usage = ZOMBIE_CPU_THRESHOLD → e.is_zombie = false) := by
  have he' : e ∈ (List.insertionSort peLE
      ((match env.tcp_listeners with
        | some ls => ls.filterMap (fun l => listener_to_entry l Protocol.Tcp env.process_map)
        | none => []) ++
        (get_udp_entries st env.process_map env.lsof_out env.netstat_out env.now).1)).map
      detect_zombie := he
  rcases List.mem_map.mp he' with ⟨a, _, rfl⟩
  constructor
  · show (decide (ZOMBIE_CPU_THRESHOLD < a.cpu_usage) && !a.has_parent) = true ↔ _
    simp [detect_zombie]
  · intro hcpu
    show (decide (ZOMBIE_CPU_THRESHOLD < a.cpu_usage) && !a.has_parent) = false
    have : a.cpu_usage = ZOMBIE_CPU_THRESHOLD := hcpu
    simp [this]

/-- C1 witness: the classification evaluated on the busy orphaned listener
that `Scanner.scan st0 env0` produces. -/
theorem c1_witness :
    (e0.is_zombie = true ↔ (ZOMBIE_CPU_THRESHOLD < e0.cpu_usage ∧ e0.has_parent = false)) ∧
    (e0.cpu_usage = ZOMBIE_CPU_THRESHOLD → e0.is_zombie = false) :=
  c1_zombie_classification st0 env0 e0 (by decide)

/-! Sort-order lemmas for the composite comparator. -/

theorem peLE_iff_rank (a b : PortEntry) : peLE a b ↔ rankKey a b := by
  unfold peLE pe_cmp rankKey
  rcases Nat.lt_trichotomy a.port b.port with h | h | h
  · rw [Nat.compare_eq_lt.mpr h]
    simp [Ordering.then, h]
  · rw [Nat.compare_eq_eq.mpr h]
    cases ha : a.protocol <;> cases hb : b.protocol <;>
      simp [protoOrd, protoRank, Ordering.then, h, Ne, Nat.compare_eq_gt, not_lt]
  · rw [Nat.compare_eq_gt.mpr h]
    simp only [Ordering.then, ne_eq, not_true_eq_false, false_iff]
    omega

theorem rankKey_total (a b : PortEntry) : rankKey a b ∨ rankKey b a := by
  unfold rankKey
  omega

theorem rankKey_trans (a b c : PortEntry) (h1 : rankKey a b) (h2 : rankKey b c) :
    rankKey a c := by
  unfold rankKey at h1 h2 ⊢
  omega

theorem adjKey_iff_rank (a b : PortEntry) : adjKey a b ↔ rankKey a b := by
  unfold adjKey rankKey
  cases ha : a.protocol <;> cases hb : b.protocol <;> simp [protoRank]

/-- C3: every pair of adjacent entries in the list a scan returns satisfies
the composite ordering: ascending port; on equal ports TCP before UDP; on
equal port and protocol descending memory usage. -/
theorem c3_scan_sorted (st : Scanner) (env : ScanEnv) :
    List.Chain' adjKey (Scanner.scan st env).1 := by
  haveI : IsTotal PortEntry peLE := ⟨fun a b => by
    rw [peLE_iff_rank, peLE_iff_rank]
    exact rankKey_total a b⟩
  haveI : IsTrans PortEntry peLE := ⟨fun a b c h1 h2 => by
    rw [peLE_iff_rank] at h1 h2 ⊢
    exact rankKey_trans a b c h1 h2⟩
  show List.Chain' adjKey ((List.insertionSort peLE
      ((match env.tcp_listeners with
        | some ls => ls.filterMap (fun l => listener_to_entry l Protocol.Tcp env.process_map)
        | none => []) ++
        (get_udp_entries st env.process_map env.lsof_out env.netstat_out env.now).1)).map
      detect_zombie)
  rw [List.chain'_map]
  refine List.Pairwise.chain' (List.Pairwise.imp ?_ (List.sorted_insertionSort peLE _))
  intro a b hab
  show adjKey (detect_zombie a) (detect_zombie b)
  have : adjKey a b := (adjKey_iff_rank a b).mpr ((peLE_iff_rank a b).mp hab)
  exact this

/-! Claim theorems about host-string parsing. -/

theorem asString_ne_empty {l : List Char} (h : l.isEmpty = false) :
    l.asString ≠ "" := by
  intro he
  have hd : l = [] := by
    have := congrArg String.data he
    simpa [List.asString] using this
  rw [hd] at h
  simp at h

theorem userHostSplit_ok (uh : List Char) (port : ℕ) (env : Option String)
    (cfg : RemoteConfig) (h : userHostSplit uh port env = Except.ok cfg) :
    cfg.host ≠ "" ∧ cfg.key_path = none ∧ cfg.port = port := by
  unfold userHostSplit at h
  split at h
  · rename_i j hj
    split at h
    · cases h
    · rename_i hk
      injection h with h1
      subst h1
      refine ⟨asString_ne_empty ?_, rfl, rfl⟩
      revert hk
      cases (uh.drop (j + 1)).isEmpty <;> simp
  · split at h
    · cases h
    · rename_i hk
      injection h with h1
      subst h1
      refine ⟨asString_ne_empty ?_, rfl, rfl⟩
      revert hk
      cases uh.isEmpty <;> simp

theorem userHostSplit_no_at (uh : List Char) (port : ℕ) (env : Option String)
    (cfg : RemoteConfig) (hno : '@' ∉ uh)
    (h : userHostSplit uh port env = Except.ok cfg) :
    cfg.username = env.getD "root" := by
  unfold userHostSplit at h
  rw [subStarts_single_nil hno] at h
  split at h
  · rename_i j hj
    simp at hj
  · split at h
    · cases h
    · injection h with h1
      subst h1
      cases env <;> rfl

theorem splitPort_no_colon {cs : List Char} (h : ':' ∉ cs) :
    splitPort cs = Except.ok (cs, 22) := by
  unfold splitPort
  rw [subStarts_single_nil h]
  rfl

theorem splitPort_sub {cs uh : List Char} {p : ℕ}
    (h : splitPort cs = Except.ok (uh, p)) : ∀ c, c ∈ uh → c ∈ cs := by
  unfold splitPort at h
  cases hj : (subStarts cs [':']).getLast? with
  | some i =>
    simp only [hj] at h
    cases hp : parseUInt u16Bound (cs.drop (i + 1)) with
    | some q =>
      simp only [hp] at h
      injection h with h1
      injection h1 with h2 h3
      intro c hc
      rw [← h2] at hc
      exact List.mem_of_mem_take hc
    | none =>
      simp only [hp] at h
      cases h
  | none =>
    simp only [hj] at h
    injection h with h1
    injection h1 with h2 h3
    intro c hc
    rw [← h2] at hc
    exact hc

/-- C5: the host string "user@example.com:2222" parses to its three
components; an input without a colon defaults the port to 22; an input
without an at sign takes the environment user, falling back to "root"; the
empty string is rejected and every accepted input has a non-empty host; a
freshly parsed configuration carries no key path. -/
theorem c5_remote_config_parse :
    (∀ env, RemoteConfig.parse "user@example.com:2222" env =
      Except.ok ⟨"user", "example.com", 2222, none⟩) ∧
    (∀ s env cfg, ':' ∉ s.data → RemoteConfig.parse s env = Except.ok cfg →
      cfg.port = 22) ∧
    (∀ s env cfg, '@' ∉ s.data → RemoteConfig.parse s env = Except.ok cfg →
      cfg.username = env.getD "root") ∧
    (∀ env, RemoteConfig.parse "" env = Except.error "Host cannot be empty") ∧
    (∀ s env cfg, RemoteConfig.parse s env = Except.ok cfg →
      cfg.host ≠ "" ∧ cfg.key_path = none) := by
  refine ⟨?_, ?_, ?_, ?_, ?_⟩
  · intro env
    rfl
  · intro s env cfg hc hok
    unfold RemoteConfig.parse at hok
    split at hok
    · cases hok
    · simp only [splitPort_no_colon hc] at hok
      exact (userHostSplit_ok s.data 22 env cfg hok).2.2
  · intro s env cfg ha hok
    unfold RemoteConfig.parse at hok
    split at hok
    · cases hok
    · cases hsp : splitPort s.data with
      | error e =>
        simp only [hsp] at hok
        cases hok
      | ok pr =>
        obtain ⟨uh, p⟩ := pr
        simp only [hsp] at hok
        have hsub := splitPort_sub hsp
        exact userHostSplit_no_at uh p env cfg (fun hm => ha (hsub _ hm)) hok
  · intro env
    rfl
  · intro s env cfg hok
    unfold RemoteConfig.parse at hok
    split at hok
    · cases hok
    · cases hsp : splitPort s.data with
      | error e =>
        simp only [hsp] at hok
        cases hok
      | ok pr =>
        obtain ⟨uh, p⟩ := pr
        simp only [hsp] at hok
        have h := userHostSplit_ok uh p env cfg hok
        exact ⟨h.1, h.2.1⟩

/-- C5 witness: the parse characterization evaluated at concrete inputs. -/
theorem c5_witness :
    RemoteConfig.parse "user@example.com:2222" (some "alice") =
      Except.ok ⟨"user", "example.com", 2222, none⟩ ∧
    cfgEx.port = 22 ∧
    cfgEx.username = (some "alice").getD "root" ∧
    RemoteConfig.parse "" none = Except.error "Host cannot be empty" ∧
    (cfgEx.host ≠ "" ∧ cfgEx.key_path = none) :=
  ⟨c5_remote_config_parse.1 (some "alice"),
   c5_remote_config_parse.2.1 "example.com" (some "alice") cfgEx (by decide) (by decide),
   c5_remote_config_parse.2.2.1 "example.com" (some "alice") cfgEx (by decide) (by decide),
   c5_remote_config_parse.2.2.2.1 none,
   c5_remote_config_parse.2.2.2.2 "example.com" (some "alice") cfgEx (by decide)⟩

/-! Claim theorems about remote output line parsing. -/

theorem containsSub_drop_false {cs pat : List Char} (hne : pat ≠ []) (k : ℕ)
    (h : containsSub cs pat = false) : containsSub (cs.drop k) pat = false := by
  rw [containsSub_eq_false_iff] at h ⊢
  unfold subStarts at h ⊢
  rw [List.filter_eq_nil_iff] at h ⊢
  intro i _ hp
  rw [List.drop_drop] at hp
  by_cases hle : k + i ≤ cs.length
  · exact h (k + i) (List.mem_range.mpr (by omega)) hp
  · have hnil : cs.drop (k + i) = [] := List.drop_eq_nil_of_le (by omega)
    rw [hnil] at hp
    cases pat with
    | nil => exact hne rfl
    | cons a as => cases hp

theorem parse_ss_users_no_name (u : List Char)
    (h : findSub u ['(', '(', '"'] = none) :
    parse_ss_users u = (0, "unknown") := by
  unfold parse_ss_users
  rw [h]

theorem parse_ss_users_no_pid (u : List Char)
    (h : containsSub u ['p', 'i', 'd', '='] = false) :
    (parse_ss_users u).1 = 0 := by
  unfold parse_ss_users
  cases hs : findSub u ['(', '(', '"'] with
  | none => rfl
  | some start =>
    dsimp only
    have hfind : findSub (u.drop (start + 3)) ['p', 'i', 'd', '='] = none := by
      unfold findSub
      rw [(containsSub_eq_false_iff _ _).mp
        (containsSub_drop_false (by decide) (start + 3) h)]
      rfl
    cases hq : (charIdxs (u.drop (start + 3)) '"').head? with
    | none => rfl
    | some e =>
      rw [hfind]

theorem parse_ss_users_quoted_name (u : List Char) (start e : ℕ)
    (hs : findSub u ['(', '(', '"'] = some start)
    (hq : (charIdxs (u.drop (start + 3)) '"').head? = some e) :
    (parse_ss_users u).2 = ((u.drop (start + 3)).take e).asString := by
  unfold parse_ss_users
  rw [hs]
  dsimp only
  rw [hq]
  dsimp only
  cases findSub (u.drop (start + 3)) ['p', 'i', 'd', '='] with
  | none => rfl
  | some ps =>
    dsimp only
    cases ((u.drop (start + 3)).drop (ps + 4)).findIdx? (fun c => !c.isDigit) with
    | none => rfl
    | some pe =>
      dsimp only
      cases parseUInt u32Bound (((u.drop (start + 3)).drop (ps + 4)).take pe) with
      | none => rfl
      | some pid => rfl

theorem parse_ss_line_entry (line : List Char) (p : Protocol) (a : List Char)
    (port : ℕ) (u : List Char) (h5 : 5 ≤ (wsSplit line).length)
    (h4 : (wsSplit line).get? 4 = some a) (hx : extract_port a = some port)
    (hu : (wsSplit line).getLast? = some u) :
    parse_ss_line line p =
      some ⟨port, p, (parse_ss_users u).1, (parse_ss_users u).2,
        0, 0, "-", true, false⟩ := by
  unfold parse_ss_line
  dsimp only
  rw [if_neg (by omega), h4]
  dsimp only
  rw [hx]
  dsimp only
  rw [hu]

/-- C7 counterexample: an ss line with five columns and a parseable port but
no parseable pid is not skipped — it produces an entry whose pid defaults to
0 and whose process name defaults to "unknown". -/
theorem c7_ss_pid_default_counterexample :
    parse_ss_line "LISTEN 0 128 x *:80".data Protocol.Tcp =
      some ⟨80, Protocol.Tcp, 0, "unknown", 0, 0, "-", true, false⟩ ∧
    parse_ss_line "LISTEN 0 128 x *:80".data Protocol.Tcp ≠ none :=
  ⟨by decide, by decide⟩

/-- C7 (amended): a line with fewer columns than required produces no entry
in either remote parser, and in the lsof parser so does an unparseable pid;
the ss parser does not skip a line with enough columns and a parseable
port: it builds an entry whose pid and name come from `parse_ss_users` of
the last column — the pid defaulting to 0 when the column carries no pid
pattern, the name being the quoted process name when one is present and
"unknown" otherwise (see the counterexample). A line that produces no entry
never disturbs the entries of the other lines of the same batch. -/
theorem c7_malformed_line_handling (line : List Char) (p : Protocol)
    (ls1 ls2 : List (List Char)) :
    ((wsSplit line).length < 5 → parse_ss_line line p = none) ∧
    ((wsSplit line).length < 9 → parse_lsof_line line p = none) ∧
    (parseUInt u32Bound ((wsSplit line).getD 1 []) = none →
      parse_lsof_line line p = none) ∧
    (parse_ss_line line p = none →
      (ls1 ++ line :: ls2).filterMap (fun l => parse_ss_line l p) =
        ls1.filterMap (fun l => parse_ss_line l p) ++
          ls2.filterMap (fun l => parse_ss_line l p)) ∧
    (parse_lsof_line line p = none →
      (ls1 ++ line :: ls2).filterMap (fun l => parse_lsof_line l p) =
        ls1.filterMap (fun l => parse_lsof_line l p) ++
          ls2.filterMap (fun l => parse_lsof_line l p)) ∧
    (∀ (a u : List Char) (port : ℕ), 5 ≤ (wsSplit line).length →
      (wsSplit line).get? 4 = some a → extract_port a = some port →
      (wsSplit line).getLast? = some u →
      parse_ss_line line p =
        some ⟨port, p, (parse_ss_users u).1, (parse_ss_users u).2,
          0, 0, "-", true, false⟩) ∧
    (∀ u : List Char, containsSub u ['p', 'i', 'd', '='] = false →
      (parse_ss_users u).1 = 0) ∧
    (∀ u : List Char, findSub u ['(', '(', '"'] = none →
      parse_ss_users u = (0, "unknown")) ∧
    (∀ (u : List Char) (start e : ℕ), findSub u ['(', '(', '"'] = some start →
      (charIdxs (u.drop (start + 3)) '"').head? = some e →
      (parse_ss_users u).2 = ((u.drop (start + 3)).take e).asString) := by
  refine ⟨?_, ?_, ?_, ?_, ?_, ?_, ?_, ?_, ?_⟩
  · intro h
    unfold parse_ss_line
    rw [if_pos h]
  · intro h
    unfold parse_lsof_line
    rw [if_pos h]
  · intro h
    unfold parse_lsof_line
    simp [List.getD] at h
    simp [h]
  · intro h
    simp [List.filterMap_append, List.filterMap_cons, h]
  · intro h
    simp [List.filterMap_append, List.filterMap_cons, h]
  · intro a u port h5 h4 hx hu
    exact parse_ss_line_entry line p a port u h5 h4 hx hu
  · intro u h
    exact parse_ss_users_no_pid u h
  · intro u h
    exact parse_ss_users_no_name u h
  · intro u start e hs hq
    exact parse_ss_users_quoted_name u start e hs hq

/-- C7 witness: the amended statement evaluated on short lines, a bad lsof
pid, a batch where a malformed middle line leaves its two well-formed
neighbours intact, and a pid-less ss line whose entry keeps the quoted name
"node" while its pid defaults to 0. -/
theorem c7_witness :
    parse_ss_line "LISTEN 0".data Protocol.Tcp = none ∧
    parse_lsof_line "node 123".data Protocol.Tcp = none ∧
    parse_lsof_line "node abc u 3 IPv4 0x1 0t0 TCP *:3000".data Protocol.Tcp = none ∧
    (["a b c d *:1".data] ++ "bad".data :: ["a b c d *:2".data]).filterMap
        (fun l => parse_ss_line l Protocol.Tcp) =
      ["a b c d *:1".data].filterMap (fun l => parse_ss_line l Protocol.Tcp) ++
        ["a b c d *:2".data].filterMap (fun l => parse_ss_line l Protocol.Tcp) ∧
    parse_ss_line "LISTEN 0 128 x *:80 users:((\"node\",fd=5))".data Protocol.Tcp =
      some ⟨80, Protocol.Tcp,
        (parse_ss_users "users:((\"node\",fd=5))".data).1,
        (parse_ss_users "users:((\"node\",fd=5))".data).2, 0, 0, "-", true, false⟩ ∧
    (parse_ss_users "users:((\"node\",fd=5))".data).1 = 0 ∧
    parse_ss_users "xyz".data = (0, "unknown") ∧
    (parse_ss_users "users:((\"node\",fd=5))".data).2 =
      (("users:((\"node\",fd=5))".data.drop 9).take 4).asString :=
  ⟨(c7_malformed_line_handling "LISTEN 0".data Protocol.Tcp [] []).1 (by decide),
   (c7_malformed_line_handling "node 123".data Protocol.Tcp [] []).2.1 (by decide),
   (c7_malformed_line_handling "node abc u 3 IPv4 0x1 0t0 TCP *:3000".data
      Protocol.Tcp [] []).2.2.1 (by decide),
   (c7_malformed_line_handling "bad".data Protocol.Tcp ["a b c d *:1".data]
      ["a b c d *:2".data]).2.2.2.1 (by decide),
   (c7_malformed_line_handling "LISTEN 0 128 x *:80 users:((\"node\",fd=5))".data
      Protocol.Tcp [] []).2.2.2.2.2.1 "*:80".data
      "users:((\"node\",fd=5))".data 80 (by decide) (by decide) (by decide)
      (by decide),
   (c7_malformed_line_handling [] Protocol.Tcp [] []).2.2.2.2.2.2.1
      "users:((\"node\",fd=5))".data (by decide),
   (c7_malformed_line_handling [] Protocol.Tcp [] []).2.2.2.2.2.2.2.1
      "xyz".data (by decide),
   (c7_malformed_line_handling [] Protocol.Tcp [] []).2.2.2.2.2.2.2.2
      "users:((\"node\",fd=5))".data 6 4 (by decide) (by decide)⟩

/-! Claim theorems about UDP deduplication. -/

theorem scan_udp_lsof_lines_dedup :
    ∀ (ls : List (List Char)) (seen : List (ℕ × ℕ)) (es : List UdpCacheEntry),
      scan_udp_lsof_lines ls seen = some es →
      es.Pairwise keyNe ∧ ∀ e ∈ es, (e.port, e.pid) ∉ seen := by
  intro ls
  induction ls with
  | nil =>
    intro seen es h
    unfold scan_udp_lsof_lines at h
    injection h with h1
    subst h1
    simp
  | cons l rest ih =>
    intro seen es h
    unfold scan_udp_lsof_lines at h
    cases hp : lsofLineParse l with
    | skip =>
      simp only [hp] at h
      exact ih seen es h
    | abort =>
      simp only [hp] at h
      cases h
    | entry port pid nm =>
      simp only [hp] at h
      by_cases hmem : (port, pid) ∈ seen
      · rw [if_pos hmem] at h
        exact ih seen es h
      · rw [if_neg hmem] at h
        rcases Option.map_eq_some'.mp h with ⟨es', hes', rfl⟩
        rcases ih ((port, pid) :: seen) es' hes' with ⟨hpw, hnot⟩
        refine ⟨List.Pairwise.cons ?_ hpw, ?_⟩
        · intro e' he' hk
          rcases hk with ⟨h1, h2⟩
          exact hnot e' he' (by simp [← h1, ← h2])
        · intro e he
          rcases List.mem_cons.mp he with rfl | hmem'
          · simpa using hmem
          · intro hin
            exact hnot e hmem' (List.mem_cons_of_mem _ hin)

/-- C8 counterexample: the secondary (netstat) scan path does not
deduplicate — two identical lines produce two rows with the same
(port, pid) pair in a single refresh pass. -/
theorem c8_netstat_no_dedup_counterexample :
    scan_udp_with_netstat_raw (some ⟨true,
      "udp 0 0 0.0.0.0:53 0.0.0.0:* 7/named\nudp 0 0 0.0.0.0:53 0.0.0.0:* 7/named"⟩) =
      some [⟨53, 7, "named"⟩, ⟨53, 7, "named"⟩] ∧
    ¬ List.Pairwise keyNe
      [(⟨53, 7, "named"⟩ : UdpCacheEntry), ⟨53, 7, "named"⟩] :=
  ⟨by decide, by decide⟩

/-- C8 (amended): within a single refresh pass the primary (lsof) scan path
produces at most one row per (port, pid) pair; the secondary (netstat) path
performs no such deduplication (see the counterexample). -/
theorem c8_lsof_dedup (out : Option CmdOut) (es : List UdpCacheEntry)
    (h : scan_udp_with_lsof_raw out = some es) : es.Pairwise keyNe := by
  unfold scan_udp_with_lsof_raw at h
  cases out with
  | none => cases h
  | some o =>
    have h2 : (if (!o.success) = true then none
        else scan_udp_lsof_lines ((rustLines o.stdout).drop 1) []) = some es := h
    rcases Bool.eq_false_or_eq_true o.success with hs | hs
    · simp only [hs, Bool.not_true, Bool.false_eq_true, if_false] at h2
      exact (scan_udp_lsof_lines_dedup _ _ _ h2).1
    · simp [hs] at h2

/-- C8 witness: the dedup guarantee evaluated on an lsof output whose two
rows carry the same (port, pid); one row survives. -/
theorem c8_witness :
    List.Pairwise keyNe [(⟨5353, 1, "systemd"⟩ : UdpCacheEntry)] :=
  c8_lsof_dedup (some ⟨true,
    "COMMAND PID USER FD TYPE DEVICE SIZE NODE NAME\nsystemd 1 root 3 IPv4 1 0 UDP *:5353\nsystemd 1 root 4 IPv4 1 0 UDP *:5353"⟩)
    [⟨5353, 1, "systemd"⟩] (by decide)

/-! Claim theorems about port extraction. -/

theorem firstPortEntry_spec :
    ∀ (ps : List (List Char)) (e : PortEntry), firstPortEntry ps = some e →
      ∃ a, a ∈ ps ∧ extract_port a = some e.port := by
  intro ps
  induction ps with
  | nil =>
    intro e h
    cases h
  | cons a rest ih =>
    intro e h
    unfold firstPortEntry at h
    cases hx : extract_port a with
    | some port =>
      simp only [hx] at h
      injection h with h1
      subst h1
      exact ⟨a, List.mem_cons_self a rest, hx⟩
    | none =>
      simp only [hx] at h
      rcases ih e h with ⟨b, hb, hbe⟩
      exact ⟨b, List.mem_cons_of_mem a hb, hbe⟩

/-- C10: the port extractor splits a bracketed address at the last "]:" and
parses the tail as a u16; otherwise, with a colon present, it parses the
text after the last colon; with no colon it yields nothing; and every entry
any remote parser produces carries a port that `extract_port` extracted
from an address column of its line. -/
theorem c10_extract_port_spec (addr : List Char) :
    (containsSub addr brColon = true →
      extract_port addr = parseUInt u16Bound (afterLastSub addr brColon)) ∧
    (containsSub addr brColon = false → ':' ∈ addr →
      extract_port addr = parseUInt u16Bound (afterLastSub addr [':'])) ∧
    (':' ∉ addr → extract_port addr = none) ∧
    (∀ line p e, parse_ss_line line p = some e →
      ∃ a, (wsSplit line).get? 4 = some a ∧ extract_port a = some e.port) ∧
    (∀ line p e, parse_lsof_line line p = some e →
      extract_port ((wsSplit line).getD 8 []) = some e.port) ∧
    (∀ line e, parse_netstat_line line = some e →
      ∃ a, a ∈ wsSplit line ∧ extract_port a = some e.port) := by
  refine ⟨?_, ?_, ?_, ?_, ?_, ?_⟩
  · intro h
    unfold extract_port rsplitn2 afterLastSub
    rw [if_pos h]
    cases hg : (subStarts addr brColon).getLast? with
    | none =>
      have hnil : subStarts addr brColon = [] := List.getLast?_eq_none_iff.mp hg
      have hf := (containsSub_eq_false_iff addr brColon).mpr hnil
      rw [h] at hf
      cases hf
    | some i => simp [hg]
  · intro hf hm
    unfold extract_port rfindIdx afterLastSub
    rw [if_neg (by simp [hf]), subStarts_single]
    cases hg : (charIdxs addr ':').getLast? with
    | none =>
      have hnil := List.getLast?_eq_none_iff.mp hg
      exact absurd ((charIdxs_eq_nil_iff addr ':').mp hnil) (by simpa using hm)
    | some i => simp [hg]
  · intro hm
    unfold extract_port rfindIdx
    rw [if_neg (by simp [containsSub_brColon_of_no_colon hm]),
      (charIdxs_eq_nil_iff addr ':').mpr hm]
    rfl
  · intro line p e hsome
    unfold parse_ss_line at hsome
    dsimp only at hsome
    split at hsome
    · cases hsome
    · cases h4 : (wsSplit line).get? 4 with
      | none =>
        simp only [h4] at hsome
        cases hsome
      | some a =>
        simp only [h4] at hsome
        cases hx : extract_port a with
        | none =>
          simp only [hx] at hsome
          cases hsome
        | some port =>
          simp only [hx] at hsome
          injection hsome with h1
          subst h1
          exact ⟨a, rfl, hx⟩
  · intro line p e hsome
    unfold parse_lsof_line at hsome
    dsimp only at hsome
    split at hsome
    · cases hsome
    · cases hp : parseUInt u32Bound ((wsSplit line).getD 1 []) with
      | none =>
        simp only [hp] at hsome
        cases hsome
      | some pid =>
        simp only [hp] at hsome
        cases hx : extract_port ((wsSplit line).getD 8 []) with
        | none =>
          simp only [hx] at hsome
          cases hsome
        | some port =>
          simp only [hx] at hsome
          injection hsome with h1
          subst h1
          rfl
  · intro line e hsome
    unfold parse_netstat_line at hsome
    dsimp only at hsome
    split at hsome
    · cases hsome
    · exact firstPortEntry_spec _ e hsome

/-- C10 witness: the three address shapes evaluated concretely. -/
theorem c10_witness :
    extract_port "[::]:8080".data =
      parseUInt u16Bound (afterLastSub "[::]:8080".data brColon) ∧
    extract_port "0.0.0.0:9".data =
      parseUInt u16Bound (afterLastSub "0.0.0.0:9".data [':']) ∧
    extract_port "abc".data = none :=
  ⟨(c10_extract_port_spec "[::]:8080".data).1 (by decide),
   (c10_extract_port_spec "0.0.0.0:9".data).2.1 (by decide) (by decide),
   (c10_extract_port_spec "abc".data).2.2.1 (by decide)⟩

end Lsport
